import Mathlib

/-!
Verification of the streaming match-and-context engine of `rust_iawk`
(`src/main.rs`).  The program reads lines, matches each against a set of
regular expressions, and emits matching lines together with a configurable
amount of before/after context.

The embedding below mirrors `parse`, `is_match_any`, `output_before_lines`
and `output_line` from `src/main.rs`.  Regular expressions are abstracted
as predicates `String → Bool` (compilation is an external collaborator);
reading a line may fail, which is modelled by `ReadResult.err`.
-/

namespace Iawk

/-- A record produced by `reader.lines()`: either a successfully decoded
line (`Ok(line)` in the source) or a read/decode error carrying its
message (`Err(e)`). -/
inductive ReadResult where
  | ok (line : String)
  | err (msg : String)
deriving DecidableEq, Repr

/-- Modelled from the spec: the Context Buffer is the external
`queues::CircularBuffer<String>` (a dependency, not part of this
repository's sources).  Per §4.1 of the spec it is a bounded FIFO store:
`queue` holds the buffered lines oldest-first and `capacity` is fixed at
construction. -/
structure CircularBuffer where
  queue : List String
  capacity : Nat
deriving DecidableEq, Repr

/-- Mirrors `CircularBuffer::<String>::new(capacity)`: an empty buffer with
the given fixed capacity. -/
def CircularBuffer.new (capacity : Nat) : CircularBuffer :=
  { queue := [], capacity := capacity }

/-- Modelled from the spec: `CircularBuffer::add` of the external `queues`
crate, per §4.1 — insertion appends the new line; if the buffer is already
at capacity the oldest stored line is silently discarded (dropped, not
emitted) to make room, and with capacity 0 the pushed line is itself
immediately discarded. -/
def CircularBuffer.add (b : CircularBuffer) (val : String) : CircularBuffer :=
  if b.queue.length < b.capacity then
    { b with queue := b.queue ++ [val] }
  else
    { b with queue := (b.queue ++ [val]).tail }

/-- Repeated insertion, oldest first (a folded `add`). -/
def CircularBuffer.addAll (b : CircularBuffer) (ls : List String) : CircularBuffer :=
  ls.foldl CircularBuffer.add b

/-- Mirrors `is_match_any`: true iff the line matches at least one of the
compiled patterns, trying them in order and stopping at the first match. -/
def is_match_any (line : String) (regexps : List (String → Bool)) : Bool :=
  match regexps with
  | [] => false
  | r :: rs => if r line then true else is_match_any line rs

/-- Result of processing one input record in the loop body of `parse`:
the updated buffer and after-counter, the lines written to the output
sink, and the messages written to the diagnostic channel (stderr). -/
structure StepResult where
  buffer : CircularBuffer
  afterLine : Int
  emitted : List String
  diagnostics : List String
deriving Repr

/-- Mirrors the body of the `for line in reader.lines()` loop of `parse`:

* `Ok(line)` with `after_line <= 0 && is_match_any(..)`: drain the buffer
  in order to the output (`output_before_lines`), emit the line, re-arm
  `after_line = arguments.after_lines`;
* otherwise `Ok(line)` with `after_line > 0`: emit the line and decrement;
* otherwise `Ok(line)`: push the line into the buffer;
* `Err(e)`: write one message to stderr, state unchanged. -/
def scanStep (regexps : List (String → Bool)) (after_lines : Int)
    (buf : CircularBuffer) (after_line : Int) (r : ReadResult) : StepResult :=
  match r with
  | .ok line =>
    if after_line ≤ 0 ∧ is_match_any line regexps then
      { buffer := CircularBuffer.new buf.capacity
        afterLine := after_lines
        emitted := buf.queue ++ [line]
        diagnostics := [] }
    else if after_line > 0 then
      { buffer := buf, afterLine := after_line - 1
        emitted := [line], diagnostics := [] }
    else
      { buffer := buf.add line, afterLine := after_line
        emitted := [], diagnostics := [] }
  | .err e =>
    { buffer := buf, afterLine := after_line
      emitted := [], diagnostics := ["Error reading line: " ++ e] }

/-- Output of the scan loop of `parse` over a list of input records, from
a given buffer and after-counter state: concatenation of the lines emitted
by each step. -/
def scanLines (regexps : List (String → Bool)) (after_lines : Int) :
    List ReadResult → CircularBuffer → Int → List String
  | [], _, _ => []
  | r :: rest, buf, after_line =>
    let s := scanStep regexps after_lines buf after_line r
    s.emitted ++ scanLines regexps after_lines rest s.buffer s.afterLine

/-- Final state (buffer, after-counter) of the scan loop of `parse` after
processing a list of input records. -/
def scanState (regexps : List (String → Bool)) (after_lines : Int) :
    List ReadResult → CircularBuffer → Int → CircularBuffer × Int
  | [], buf, after_line => (buf, after_line)
  | r :: rest, buf, after_line =>
    let s := scanStep regexps after_lines buf after_line r
    scanState regexps after_lines rest s.buffer s.afterLine

/-- Mirrors the Rust cast `arguments.before_lines as usize` on a 64-bit
target: the `i32` value is reinterpreted modulo `2 ^ 64`. -/
def usize_of_i32 (x : Int) : Nat := (x % (2 : Int) ^ 64).toNat

/-- Mirrors `parse` after pattern compilation: the buffer is created with
capacity `arguments.before_lines as usize`, the after-counter starts at 0,
and the records are scanned in order. -/
def parse (regexps : List (String → Bool)) (before_lines after_lines : Int)
    (input : List ReadResult) : List String :=
  scanLines regexps after_lines input
    (CircularBuffer.new (usize_of_i32 before_lines)) 0

/-- Mirrors the pattern-compilation pass of `parse`:
`regexp.into_iter().map(|r| Regex::new(&r).expect("Invalid regular
expression")).collect()`.  Compilation of a single pattern is the abstract
`compile`; the first pattern that fails to compile aborts the whole run
(`expect` panics) with the fixed message. -/
def compile_regexps (compile : String → Option (String → Bool)) :
    List String → Except String (List (String → Bool))
  | [] => .ok []
  | r :: rs =>
    match compile r with
    | none => .error "Invalid regular expression"
    | some p =>
      match compile_regexps compile rs with
      | .error e => .error e
      | .ok ps => .ok (p :: ps)

/-- Mirrors `parse` as a whole: patterns are compiled before the first
record is read; a compilation failure aborts before any output, otherwise
the scan runs on the input. -/
def parse_program (compile : String → Option (String → Bool))
    (regexp_sources : List String) (before_lines after_lines : Int)
    (input : List ReadResult) : Except String (List String) :=
  match compile_regexps compile regexp_sources with
  | .error e => .error e
  | .ok rs => .ok (parse rs before_lines after_lines input)

/-- Last `n` elements of a list, in order. -/
def takeLast (n : Nat) (l : List String) : List String :=
  l.drop (l.length - n)

/-! ## Basic lemmas about the step function and the buffer -/

lemma scanLines_nil (regexps : List (String → Bool)) (A : Int)
    (buf : CircularBuffer) (a : Int) : scanLines regexps A [] buf a = [] := rfl

lemma scanLines_cons (regexps : List (String → Bool)) (A : Int)
    (r : ReadResult) (rest : List ReadResult) (buf : CircularBuffer) (a : Int) :
    scanLines regexps A (r :: rest) buf a
      = (scanStep regexps A buf a r).emitted
        ++ scanLines regexps A rest (scanStep regexps A buf a r).buffer
            (scanStep regexps A buf a r).afterLine := rfl

lemma scanState_cons (regexps : List (String → Bool)) (A : Int)
    (r : ReadResult) (rest : List ReadResult) (buf : CircularBuffer) (a : Int) :
    scanState regexps A (r :: rest) buf a
      = scanState regexps A rest (scanStep regexps A buf a r).buffer
          (scanStep regexps A buf a r).afterLine := rfl

lemma scanStep_match (regexps : List (String → Bool)) (A : Int)
    (buf : CircularBuffer) (a : Int) (line : String)
    (ha : a ≤ 0) (hm : is_match_any line regexps = true) :
    scanStep regexps A buf a (.ok line)
      = { buffer := CircularBuffer.new buf.capacity, afterLine := A
          emitted := buf.queue ++ [line], diagnostics := [] } := by
  simp [scanStep, ha, hm]

lemma scanStep_after (regexps : List (String → Bool)) (A : Int)
    (buf : CircularBuffer) (a : Int) (line : String) (ha : 0 < a) :
    scanStep regexps A buf a (.ok line)
      = { buffer := buf, afterLine := a - 1
          emitted := [line], diagnostics := [] } := by
  have h1 : ¬ a ≤ 0 := by omega
  simp [scanStep, h1, ha]

lemma scanStep_push (regexps : List (String → Bool)) (A : Int)
    (buf : CircularBuffer) (a : Int) (line : String)
    (ha : a ≤ 0) (hm : is_match_any line regexps = false) :
    scanStep regexps A buf a (.ok line)
      = { buffer := buf.add line, afterLine := a
          emitted := [], diagnostics := [] } := by
  have h2 : ¬ 0 < a := by omega
  simp [scanStep, hm, h2]

lemma add_capacity (b : CircularBuffer) (l : String) :
    (b.add l).capacity = b.capacity := by
  unfold CircularBuffer.add
  split <;> rfl

lemma add_queue_length_le (b : CircularBuffer) (l : String)
    (h : b.queue.length ≤ b.capacity) :
    (b.add l).queue.length ≤ b.capacity := by
  unfold CircularBuffer.add
  split
  · rename_i hlt
    simpa using hlt
  · rename_i hge
    simp only [List.length_tail, List.length_append, List.length_singleton,
      Nat.add_sub_cancel]
    exact h

lemma addAll_cons (b : CircularBuffer) (u : String) (us : List String) :
    b.addAll (u :: us) = (b.add u).addAll us := rfl

lemma addAll_capacity (us : List String) :
    ∀ b : CircularBuffer, (b.addAll us).capacity = b.capacity := by
  induction us with
  | nil => intro b; rfl
  | cons u us ih =>
    intro b
    rw [addAll_cons, ih, add_capacity]

/-! ## Lemmas about the phases of the scan -/

/-- While the after-counter is nonpositive, non-matching lines are pushed
into the buffer and produce no output. -/
lemma scanLines_pushes (regexps : List (String → Bool)) (A : Int)
    (us : List String) :
    ∀ (rest : List ReadResult) (buf : CircularBuffer) (a : Int), a ≤ 0 →
      (∀ u ∈ us, is_match_any u regexps = false) →
      scanLines regexps A (us.map .ok ++ rest) buf a
        = scanLines regexps A rest (buf.addAll us) a := by
  induction us with
  | nil =>
    intro rest buf a _ _
    rfl
  | cons u us ih =>
    intro rest buf a ha hn
    have hu : is_match_any u regexps = false := hn u (by simp)
    rw [List.map_cons, List.cons_append, scanLines_cons,
      scanStep_push regexps A buf a u ha hu]
    simp only [List.nil_append]
    rw [ih rest (buf.add u) a ha (fun x hx => hn x (List.mem_cons_of_mem _ hx)),
      addAll_cons]

/-- While the after-counter dominates the remaining lines, each line is
emitted unconditionally and the counter decremented. -/
lemma scanLines_window (regexps : List (String → Bool)) (A : Int)
    (vs : List String) :
    ∀ (rest : List ReadResult) (buf : CircularBuffer) (a : Int),
      (vs.length : Int) ≤ a →
      scanLines regexps A (vs.map .ok ++ rest) buf a
        = vs ++ scanLines regexps A rest buf (a - vs.length) := by
  induction vs with
  | nil =>
    intro rest buf a _
    simp
  | cons v vs ih =>
    intro rest buf a h
    have hlen : ((v :: vs).length : Int) = (vs.length : Int) + 1 := by
      simp
    have ha : 0 < a := by omega
    rw [List.map_cons, List.cons_append, scanLines_cons,
      scanStep_after regexps A buf a v ha]
    simp only [List.singleton_append]
    rw [ih rest buf (a - 1) (by omega)]
    have harith : a - 1 - (vs.length : Int) = a - ((v :: vs).length : Int) := by
      omega
    rw [harith]
    simp

lemma takeLast_of_le (n : Nat) (l : List String) (h : l.length ≤ n) :
    takeLast n l = l := by
  simp [takeLast, Nat.sub_eq_zero_of_le h]

lemma takeLast_cons (n : Nat) (x : String) (l : List String)
    (h : n ≤ l.length) : takeLast n (x :: l) = takeLast n l := by
  unfold takeLast
  have h2 : (x :: l).length - n = (l.length - n) + 1 := by
    simp only [List.length_cons]
    omega
  rw [h2, List.drop_succ_cons]

/-- Content of the buffer after pushing a list of lines: the last
`capacity` of the previously-held and newly-pushed lines, in order. -/
lemma addAll_queue (us : List String) :
    ∀ b : CircularBuffer, b.queue.length ≤ b.capacity →
      (b.addAll us).queue = takeLast b.capacity (b.queue ++ us) := by
  induction us with
  | nil =>
    intro b h
    rw [List.append_nil, takeLast_of_le _ _ h]
    rfl
  | cons u us ih =>
    intro b h
    rw [addAll_cons, ih (b.add u) (by rw [add_capacity]; exact add_queue_length_le b u h),
      add_capacity]
    by_cases hlt : b.queue.length < b.capacity
    · have hq : (b.add u).queue = b.queue ++ [u] := by
        simp [CircularBuffer.add, hlt]
      rw [hq, List.append_assoc]
      rfl
    · have heq : b.queue.length = b.capacity := le_antisymm h (le_of_not_lt hlt)
      have hq : (b.add u).queue = (b.queue ++ [u]).tail := by
        simp [CircularBuffer.add, hlt]
      rw [hq]
      cases hqs : b.queue with
      | nil =>
        have hc : b.capacity = 0 := by
          rw [← heq, hqs]
          rfl
        simp [hc, takeLast, List.drop_length]
      | cons y q =>
        simp only [List.cons_append, List.tail_cons, List.append_assoc,
          List.singleton_append]
        have hlen : b.capacity ≤ (q ++ u :: us).length := by
          have : b.queue.length = q.length + 1 := by
            rw [hqs]
            simp
          simp only [List.length_append, List.length_cons]
          omega
        rw [takeLast_cons _ y _ hlen]
        simp

/-- With an empty pattern set and a nonpositive after-counter, the scan
never emits anything. -/
lemma scanLines_no_patterns (A : Int) (input : List ReadResult) :
    ∀ (buf : CircularBuffer) (a : Int), a ≤ 0 →
      scanLines [] A input buf a = [] := by
  induction input with
  | nil =>
    intro buf a _
    rfl
  | cons r rest ih =>
    intro buf a ha
    cases r with
    | ok line =>
      rw [scanLines_cons, scanStep_push [] A buf a line ha rfl]
      simp only [List.nil_append]
      exact ih _ a ha
    | err e =>
      rw [scanLines_cons]
      simp only [scanStep, List.nil_append]
      exact ih buf a ha

/-- With `before = 0` and `after = 0` the scan is the filter by the match
predicate. -/
lemma scanLines_zero_zero (regexps : List (String → Bool)) (lines : List String) :
    scanLines regexps 0 (lines.map .ok) (CircularBuffer.new 0) 0
      = lines.filter (fun l => is_match_any l regexps) := by
  induction lines with
  | nil => rfl
  | cons l ls ih =>
    rw [List.map_cons, scanLines_cons]
    by_cases hm : is_match_any l regexps = true
    · rw [scanStep_match regexps 0 (CircularBuffer.new 0) 0 l le_rfl hm]
      simp only [List.nil_append, List.filter_cons, hm, if_pos]
      exact congrArg (l :: ·) ih
    · have hm' : is_match_any l regexps = false := by
        simpa using hm
      rw [scanStep_push regexps 0 (CircularBuffer.new 0) 0 l le_rfl hm']
      have hadd : (CircularBuffer.new 0).add l = CircularBuffer.new 0 := rfl
      simp only [List.nil_append, hadd, List.filter_cons, hm']
      simpa using ih

/-- Each step preserves the buffer-size invariant and the capacity. -/
lemma scanStep_buffer_inv (regexps : List (String → Bool)) (A : Int)
    (buf : CircularBuffer) (a : Int) (r : ReadResult)
    (h : buf.queue.length ≤ buf.capacity) :
    (scanStep regexps A buf a r).buffer.queue.length ≤ buf.capacity
      ∧ (scanStep regexps A buf a r).buffer.capacity = buf.capacity := by
  cases r with
  | ok line =>
    by_cases h1 : a ≤ 0 ∧ is_match_any line regexps = true
    · rw [scanStep_match regexps A buf a line h1.1 h1.2]
      exact ⟨by simp [CircularBuffer.new], rfl⟩
    · by_cases h2 : 0 < a
      · rw [scanStep_after regexps A buf a line h2]
        exact ⟨h, rfl⟩
      · have ha : a ≤ 0 := by omega
        have hm : is_match_any line regexps = false := by
          rcases Bool.eq_false_or_eq_true (is_match_any line regexps) with ht | hf
          · exact absurd ⟨ha, ht⟩ h1
          · exact hf
        rw [scanStep_push regexps A buf a line ha hm]
        exact ⟨add_queue_length_le buf line h, add_capacity buf line⟩
  | err e => exact ⟨h, rfl⟩

/-- A zero-capacity buffer stays the empty zero-capacity buffer across
every step. -/
lemma scanStep_zero_buffer (regexps : List (String → Bool)) (A : Int)
    (a : Int) (r : ReadResult) :
    (scanStep regexps A (CircularBuffer.new 0) a r).buffer
      = CircularBuffer.new 0 := by
  cases r with
  | ok line =>
    by_cases h1 : a ≤ 0 ∧ is_match_any line regexps = true
    · rw [scanStep_match regexps A (CircularBuffer.new 0) a line h1.1 h1.2]
      rfl
    · by_cases h2 : 0 < a
      · rw [scanStep_after regexps A (CircularBuffer.new 0) a line h2]
      · have ha : a ≤ 0 := by omega
        have hm : is_match_any line regexps = false := by
          rcases Bool.eq_false_or_eq_true (is_match_any line regexps) with ht | hf
          · exact absurd ⟨ha, ht⟩ h1
          · exact hf
        rw [scanStep_push regexps A (CircularBuffer.new 0) a line ha hm]
        rfl
  | err e => rfl

lemma scanState_buffer_inv (regexps : List (String → Bool)) (A : Int) :
    ∀ (input : List ReadResult) (buf : CircularBuffer) (a : Int),
      buf.queue.length ≤ buf.capacity →
      (scanState regexps A input buf a).1.queue.length ≤ buf.capacity
        ∧ (scanState regexps A input buf a).1.capacity = buf.capacity := by
  intro input
  induction input with
  | nil =>
    intro buf a h
    exact ⟨h, rfl⟩
  | cons r rest ih =>
    intro buf a h
    rw [scanState_cons]
    have hstep := scanStep_buffer_inv regexps A buf a r h
    have hrec := ih (scanStep regexps A buf a r).buffer
      (scanStep regexps A buf a r).afterLine (hstep.2 ▸ hstep.1)
    exact ⟨hstep.2 ▸ hrec.1, hstep.2 ▸ hrec.2⟩

lemma scanState_zero_buffer (regexps : List (String → Bool)) (A : Int) :
    ∀ (input : List ReadResult) (a : Int),
      (scanState regexps A input (CircularBuffer.new 0) a).1
        = CircularBuffer.new 0 := by
  intro input
  induction input with
  | nil =>
    intro a
    rfl
  | cons r rest ih =>
    intro a
    rw [scanState_cons, scanStep_zero_buffer regexps A a r]
    exact ih _

lemma compile_regexps_fails (compile : String → Option (String → Bool)) :
    ∀ srcs : List String, (∃ r ∈ srcs, compile r = none) →
      compile_regexps compile srcs = .error "Invalid regular expression" := by
  intro srcs
  induction srcs with
  | nil =>
    intro h
    rcases h with ⟨r, hr, _⟩
    simp at hr
  | cons s ss ih =>
    intro h
    unfold compile_regexps
    cases hc : compile s with
    | none => rfl
    | some p =>
      rcases h with ⟨r, hr, hrn⟩
      rcases List.mem_cons.mp hr with heq | hmem
      · rw [heq] at hrn
        rw [hrn] at hc
        exact Option.noConfusion hc
      · rw [ih ⟨r, hmem, hrn⟩]

/-! ## Claim theorems -/

/-- C4: while the Pending After-Count is strictly positive, the incoming
line is emitted as plain trailing context and the counter decremented,
with the result independent of the pattern set (the predicate plays no
role) — in particular a fresh match, with before-context flush and
counter re-arm, is never recognized on a line inside an active trailing
window. -/
theorem after_window_no_fresh_match (regexps : List (String → Bool))
    (A : Int) (buf : CircularBuffer) (a : Int) (line : String) (ha : 0 < a) :
    scanStep regexps A buf a (.ok line)
      = { buffer := buf, afterLine := a - 1
          emitted := [line], diagnostics := [] } :=
  scanStep_after regexps A buf a line ha

/-- Witness for C4: at counter 1 and a line matching the (always-true)
pattern, the line is still emitted as plain context, no flush or re-arm. -/
theorem after_window_no_fresh_match_witness :
    scanStep [fun _ => true] 5 (CircularBuffer.new 2) 1 (.ok "x")
      = { buffer := CircularBuffer.new 2, afterLine := 0
          emitted := ["x"], diagnostics := [] } := by
  have h := after_window_no_fresh_match [fun _ => true] 5
    (CircularBuffer.new 2) 1 "x" (by norm_num)
  simpa using h

/-- C6: with an empty Pattern Set no line ever matches and the output is
empty, for every input and all before/after arguments. -/
theorem empty_patterns_empty_output (before_lines after_lines : Int)
    (input : List ReadResult) :
    parse [] before_lines after_lines input = [] :=
  scanLines_no_patterns after_lines input _ 0 le_rfl

/-- C9: a failed read of one record writes exactly one message to the
diagnostic channel, leaves the Context Buffer and the after-counter
unchanged, emits nothing to the output, and scanning resumes with the
next record. -/
theorem read_error_skips_record (regexps : List (String → Bool)) (A : Int)
    (buf : CircularBuffer) (a : Int) (e : String) (rest : List ReadResult) :
    scanStep regexps A buf a (.err e)
        = { buffer := buf, afterLine := a, emitted := []
            diagnostics := ["Error reading line: " ++ e] }
      ∧ scanLines regexps A (.err e :: rest) buf a
        = scanLines regexps A rest buf a :=
  ⟨rfl, rfl⟩

/-- C10: a negative `before_lines` is cast with `as usize`, which wraps
modulo `2 ^ 64`, so the Context Buffer is constructed with capacity
`2 ^ 64 + before_lines` instead of the value being rejected or clamped. -/
theorem negative_before_lines_wraps (x : Int)
    (h1 : -(2 ^ 31) ≤ x) (h2 : x < 0) :
    ((CircularBuffer.new (usize_of_i32 x)).capacity : Int) = 2 ^ 64 + x := by
  show ((usize_of_i32 x : Nat) : Int) = 2 ^ 64 + x
  unfold usize_of_i32
  have hp31 : (2 : Int) ^ 31 = 2147483648 := by norm_num
  rw [hp31] at h1
  rw [show (2 : Int) ^ 64 = 18446744073709551616 from by norm_num]
  have hmod : x % (18446744073709551616 : Int) = x + 18446744073709551616 := by
    omega
  rw [hmod, Int.toNat_of_nonneg (by omega)]
  omega

/-- Witness for C10: `before_lines = -1` yields capacity `2 ^ 64 - 1`. -/
theorem negative_before_lines_wraps_witness :
    ((CircularBuffer.new (usize_of_i32 (-1))).capacity : Int) = 2 ^ 64 + (-1) :=
  negative_before_lines_wraps (-1) (by norm_num) (by norm_num)

/-- C1: with a non-empty pattern set and `before = after = 0`, the output
is exactly the subsequence of input lines matching at least one pattern,
in original order, each occurrence emitted once. -/
theorem before0_after0_filter (regexps : List (String → Bool))
    (lines : List String) (hne : regexps ≠ []) :
    parse regexps 0 0 (lines.map .ok)
      = lines.filter (fun l => is_match_any l regexps) := by
  unfold parse
  have h0 : usize_of_i32 0 = 0 := rfl
  rw [h0]
  exact scanLines_zero_zero regexps lines

/-- Witness for C1: the spec's literal scenario, pattern matching exactly
the line `def`. -/
theorem before0_after0_filter_witness :
    parse [fun l => l == "def"] 0 0 (["abc", "def", "ghi"].map .ok)
      = ["def"] := by
  have h := before0_after0_filter [fun l => l == "def"]
    ["abc", "def", "ghi"] (by simp)
  rw [h]
  rfl

/-- C2: starting from an empty buffer (stream start, or any state after a
flush once the after-window is exhausted), a run of non-matching lines
followed by a matching line emits exactly the last `min(B, run length)`
of those lines (`takeLast B us`) as before-context, immediately followed
by the match; the scan then continues from an empty buffer, so no
buffered line can be emitted again by a later flush. -/
theorem before_context_exact (regexps : List (String → Bool)) (B : Nat)
    (A : Int) (us : List String) (m : String) (rest : List ReadResult)
    (a : Int) (ha : a ≤ 0)
    (hn : ∀ u ∈ us, is_match_any u regexps = false)
    (hm : is_match_any m regexps = true) :
    scanLines regexps A (us.map .ok ++ .ok m :: rest)
        (CircularBuffer.new B) a
      = (takeLast B us ++ [m])
        ++ scanLines regexps A rest (CircularBuffer.new B) A := by
  rw [scanLines_pushes regexps A us (.ok m :: rest) (CircularBuffer.new B) a ha hn]
  rw [scanLines_cons,
    scanStep_match regexps A ((CircularBuffer.new B).addAll us) a m ha hm]
  have hq : ((CircularBuffer.new B).addAll us).queue = takeLast B us := by
    have h := addAll_queue us (CircularBuffer.new B) (by simp [CircularBuffer.new])
    simpa [CircularBuffer.new] using h
  have hc : ((CircularBuffer.new B).addAll us).capacity = B :=
    addAll_capacity us (CircularBuffer.new B)
  simp only [hq, hc, List.append_assoc]

/-- Witness for C2: the spec's scenario with `before = 1`: of the two
lines preceding the match only the nearest one is flushed. -/
theorem before_context_exact_witness :
    scanLines [fun l => l == "MATCH"] 0
        (["x", "y"].map .ok ++ .ok "MATCH" :: []) (CircularBuffer.new 1) 0
      = ["y", "MATCH"] := by
  have h := before_context_exact [fun l => l == "MATCH"] 1 0 ["x", "y"]
    "MATCH" [] 0 le_rfl (by decide) (by decide)
  rw [h]
  rfl

/-- C3: when a match is recognized (counter nonpositive), the buffered
context and the match are emitted, and then any `k ≤ A` following lines
are emitted unconditionally as trailing context with the counter left at
`A - k`; with `rest = []` the stream may end first and fewer than `A`
lines are emitted, with `k = A` exactly `A` lines are emitted and the
window closes. -/
theorem after_context_window (regexps : List (String → Bool)) (A : Int)
    (buf : CircularBuffer) (a : Int) (m : String) (vs : List String)
    (rest : List ReadResult) (ha : a ≤ 0)
    (hm : is_match_any m regexps = true)
    (hv : (vs.length : Int) ≤ A) :
    scanLines regexps A (.ok m :: (vs.map .ok ++ rest)) buf a
      = buf.queue ++ [m]
        ++ (vs ++ scanLines regexps A rest (CircularBuffer.new buf.capacity)
              (A - vs.length)) := by
  rw [scanLines_cons, scanStep_match regexps A buf a m ha hm]
  simp only [List.append_assoc]
  rw [scanLines_window regexps A vs rest (CircularBuffer.new buf.capacity) A hv]

/-- Witness for C3: `after = 2`, the two lines following the match are
emitted unconditionally and the counter ends at 0. -/
theorem after_context_window_witness :
    scanLines [fun l => l == "M"] 2
        (.ok "M" :: (["p", "q"].map .ok ++ [])) (CircularBuffer.new 0) 0
      = ["M", "p", "q"] := by
  have h := after_context_window [fun l => l == "M"] 2
    (CircularBuffer.new 0) 0 "M" ["p", "q"] [] le_rfl (by decide) (by decide)
  rw [h]
  rfl

/-- C5: three invariants of the Context Buffer.  First, across any run of
the scan the buffer size never exceeds its (unchanged) capacity.  Second,
a push on a buffer at (non-empty) capacity silently drops the oldest
stored line, which is not emitted (`add` produces no output by
construction).  Third, with capacity 0 the buffer is the empty buffer at
every point of the scan: every pushed line is immediately discarded. -/
theorem context_buffer_invariants :
    (∀ (regexps : List (String → Bool)) (A : Int) (input : List ReadResult)
        (buf : CircularBuffer) (a : Int),
        buf.queue.length ≤ buf.capacity →
        (scanState regexps A input buf a).1.queue.length
          ≤ (scanState regexps A input buf a).1.capacity)
    ∧ (∀ (buf : CircularBuffer) (y : String) (q : List String) (l : String),
        buf.queue = y :: q → buf.queue.length = buf.capacity →
        (buf.add l).queue = q ++ [l])
    ∧ (∀ (regexps : List (String → Bool)) (A : Int)
        (input : List ReadResult) (a : Int),
        (scanState regexps A input (CircularBuffer.new 0) a).1
          = CircularBuffer.new 0) := by
  refine ⟨?_, ?_, ?_⟩
  · intro regexps A input buf a h
    have hinv := scanState_buffer_inv regexps A input buf a h
    rw [hinv.2]
    exact hinv.1
  · intro buf y q l hq hlen
    unfold CircularBuffer.add
    rw [if_neg (by omega)]
    rw [hq]
    rfl
  · intro regexps A input a
    exact scanState_zero_buffer regexps A input a

/-- Witness for C5: a scan step on a full one-slot buffer keeps the size
bound; a push on the full buffer `["old"]` drops `old`; a zero-capacity
scan keeps the buffer empty. -/
theorem context_buffer_invariants_witness :
    ((scanState [] 0 [ReadResult.ok "a"] (CircularBuffer.new 1) 0).1.queue.length
        ≤ (scanState [] 0 [ReadResult.ok "a"] (CircularBuffer.new 1) 0).1.capacity)
    ∧ ((CircularBuffer.mk ["old"] 1).add "new").queue = [] ++ ["new"]
    ∧ (scanState [] 0 [ReadResult.ok "a"] (CircularBuffer.new 0) 5).1
        = CircularBuffer.new 0 :=
  ⟨context_buffer_invariants.1 [] 0 [ReadResult.ok "a"]
      (CircularBuffer.new 1) 0 (by decide),
    context_buffer_invariants.2.1 (CircularBuffer.mk ["old"] 1) "old" []
      "new" rfl rfl,
    context_buffer_invariants.2.2 [] 0 [ReadResult.ok "a"] 5⟩

/-- C7: when the input ends, lines still held in the Context Buffer are
discarded unemitted: from any state with an inactive after-window, a
trailing run of non-matching lines (which only fills the buffer) produces
no output at all, whatever the buffer already holds — there is no flush
at end of stream. -/
theorem end_of_stream_discards_buffer (regexps : List (String → Bool))
    (A : Int) (buf : CircularBuffer) (a : Int) (us : List String)
    (ha : a ≤ 0) (hn : ∀ u ∈ us, is_match_any u regexps = false) :
    scanLines regexps A (us.map .ok) buf a = [] := by
  have h := scanLines_pushes regexps A us [] buf a ha hn
  rw [List.append_nil] at h
  rw [h]
  rfl

/-- Witness for C7: two trailing non-matching lines plus a line already
buffered are all discarded at end of stream. -/
theorem end_of_stream_discards_buffer_witness :
    scanLines [fun _ => false] 7 (["a", "b"].map .ok)
      (CircularBuffer.mk ["z"] 3) 0 = [] :=
  end_of_stream_discards_buffer [fun _ => false] 7
    (CircularBuffer.mk ["z"] 3) 0 ["a", "b"] le_rfl (by decide)

/-- C8: if any supplied pattern fails to compile, the whole run aborts
with the fatal message before any record is consulted: the result is the
same error for every input and no output line is produced. -/
theorem invalid_pattern_fatal (compile : String → Option (String → Bool))
    (srcs : List String) (before_lines after_lines : Int)
    (hbad : ∃ r ∈ srcs, compile r = none) (input : List ReadResult) :
    parse_program compile srcs before_lines after_lines input
      = .error "Invalid regular expression" := by
  unfold parse_program
  rw [compile_regexps_fails compile srcs hbad]

/-- Witness for C8: a pattern that fails to compile aborts the run on a
non-empty input that would otherwise match. -/
theorem invalid_pattern_fatal_witness :
    parse_program (fun _ => none) ["("] 0 0 [ReadResult.ok "x"]
      = .error "Invalid regular expression" :=
  invalid_pattern_fatal (fun _ => none) ["("] 0 0
    ⟨"(", by simp, rfl⟩ [ReadResult.ok "x"]

end Iawk
